import Mathlib

/-!
Shallow embedding of the merge-activity ingestion pipeline of the
`python_prediction_major_project` repository, together with proofs that settle
the specification claims about it.

Embedding conventions:
* Python `str` values are Lean `String`s; the handful of Python string methods
  the pipeline uses (`lower`, `lstrip`, `strip`, `replace`, `split`,
  `endswith`, slicing, the `in` operator) are defined below on the underlying
  character lists, mirroring their Python semantics.
* `datetime` values are modelled by `PyDateTime`, a calendar date (an integer
  day ordinal, as produced by `.date()`) plus a time-of-day; comparison is
  lexicographic, matching comparison of timezone-aware datetimes.
* The HTTP layer is modelled by an explicit list of `FetchEvent`s, one per
  issued request: a response (status code, parsed JSON body, presence of a
  `next` link) or a transport-level failure (`requests` timeout / exception).
* Database tables are lists of row structures; a SQLAlchemy session with
  `autoflush=False` (as configured in `app/common/database.py`) is modelled by
  keeping pending adds separate from the committed rows until the commit, and
  queries only see the committed rows.
-/

namespace Ingest

/-! ### Python string primitives -/

/-- Python `s.lower()` (ASCII case mapping, which covers every character the
pipeline manipulates). -/
def pyLower (s : String) : String := ⟨s.data.map Char.toLower⟩

/-- Python `s.lstrip(c)` for a single-character strip set. -/
def pyLstrip (c : Char) (s : String) : String := ⟨s.data.dropWhile (fun x => x == c)⟩

/-- Python `s.replace(old, new)` for single-character `old`/`new`. -/
def pyReplaceChar (old new : Char) (s : String) : String :=
  ⟨s.data.map (fun x => if x == old then new else x)⟩

/-- Python `s.endswith(suffix)`. -/
def pyEndsWith (s suffix : String) : Bool := suffix.data.isSuffixOf s.data

/-- Python `s[:-n]` for `n ≤ len(s)`: drop the final `n` characters. -/
def pyDropRight (s : String) (n : Nat) : String := ⟨s.data.take (s.data.length - n)⟩

/-- Python `sub in s` (substring containment). -/
def pyContains (s sub : String) : Bool := decide (sub.data <:+: s.data)

/-- Python `s.strip(c)` for a single-character strip set: drop leading and
trailing occurrences of `c`. -/
def pyStrip (c : Char) (s : String) : String :=
  ⟨((s.data.dropWhile (fun x => x == c)).reverse.dropWhile (fun x => x == c)).reverse⟩

/-- Python `s.strip()`: drop leading and trailing whitespace. -/
def pyStripWs (s : String) : String :=
  ⟨((s.data.dropWhile Char.isWhitespace).reverse.dropWhile Char.isWhitespace).reverse⟩

/-- Helper for `pySplit`: accumulates the current field (reversed) while
walking the character list. -/
def pySplitAux (sep : Char) : List Char → List Char → List (List Char)
  | [], cur => [cur.reverse]
  | c :: cs, cur =>
    if c == sep then cur.reverse :: pySplitAux sep cs []
    else pySplitAux sep cs (c :: cur)

/-- Python `s.split(sep)` for a single-character separator: always returns at
least one (possibly empty) field. -/
def pySplit (sep : Char) (s : String) : List String :=
  (pySplitAux sep s.data []).map (fun l => ⟨l⟩)

/-- Python truthiness of an optional string: `None` and `""` are falsy. -/
def strTruthy : Option String → Bool
  | none => false
  | some s => s ≠ ""

/-! ### Identifier Normalizer
(`app/services/github_service.py: extract_org_name_from_url` and
`app/pipeline/helper.py: get_organization_list`) -/

/-- The result of Python `urlparse` on a profile URL: the network location and
the path component.  (The pipeline reads nothing else from the parse.) -/
structure ParsedUrl where
  netloc : String
  path : String
deriving DecidableEq, Repr

/-- `path_parts = [part for part in parsed.path.strip("/").split("/") if part]`. -/
def path_parts (path : String) : List String :=
  (pySplit '/' (pyStrip '/' path)).filter (fun part => part ≠ "")

/-- `github_service.extract_org_name_from_url`.  `none` models a falsy `url`
argument (Python `if not url: return None`). -/
def extract_org_name_from_url : Option ParsedUrl → Option String
  | none => none
  | some parsed =>
    match path_parts parsed.path with
    | [] => none
    | p0 :: rest =>
      let host := pyLower parsed.netloc
      if pyContains host "github.com" = false then
        some ((p0 :: rest).getLastD p0)
      else
        match rest with
        | p1 :: _ => if pyLower p0 = "orgs" then some p1 else some p0
        | [] => some p0

/-- One row of the `gsoc_organizations` table as read by
`helper.get_organization_list` (id, name, github_url, slug).  The URL is kept
in parsed form. -/
structure GSoCOrgRow where
  id : Int
  name : Option String
  github_url : Option ParsedUrl
  slug : Option String
deriving DecidableEq, Repr

/-- One element of the list returned by `get_organization_list`. -/
structure NormalizedOrg where
  id : Int
  display_name : String
  github_slug : String
deriving DecidableEq, Repr

/-- The post-processing applied to a derived handle in
`helper.get_organization_list`:
`github_slug.lstrip("@").replace(" ", "-").lower()`, then strip one trailing
`".git"`. -/
def postProcessSlug (s : String) : String :=
  let s1 := pyLower (pyReplaceChar ' ' '-' (pyLstrip '@' s))
  if pyEndsWith s1 ".git" then pyDropRight s1 4 else s1

/-- The slug derived for one row before dedup/skip bookkeeping: URL extraction,
slug fallback, post-processing (`helper.get_organization_list` loop body). -/
def derive_github_slug (row : GSoCOrgRow) : Option String :=
  let github_slug0 : Option String :=
    match row.github_url with
    | some u => extract_org_name_from_url (some u)
    | none => none
  let github_slug1 : Option String :=
    if strTruthy github_slug0 = false && strTruthy row.slug then
      let candidate := pyStrip '/' (pyStripWs (row.slug.getD ""))
      some ((pySplit '/' candidate).getLastD "")
    else github_slug0
  if strTruthy github_slug1 then some (postProcessSlug (github_slug1.getD ""))
  else github_slug1

/-- `display_name = name or slug or "Unknown"`. -/
def display_name_of (row : GSoCOrgRow) : String :=
  if strTruthy row.name then row.name.getD ""
  else if strTruthy row.slug then row.slug.getD ""
  else "Unknown"

/-- The normalization loop of `get_organization_list`: skip rows without a
truthy derived slug, deduplicate by slug keeping the first occurrence. -/
def normalizeLoop : List GSoCOrgRow → List String → List NormalizedOrg
  | [], _ => []
  | row :: rest, seen =>
    match derive_github_slug row with
    | none => normalizeLoop rest seen
    | some gs =>
      if gs = "" then normalizeLoop rest seen
      else if seen.contains gs then normalizeLoop rest seen
      else
        { id := row.id, display_name := display_name_of row, github_slug := gs } ::
          normalizeLoop rest (gs :: seen)

/-- `helper.get_organization_list`: the id filter is applied both in the query
and again after normalization. -/
def get_organization_list (rows : List GSoCOrgRow) (start_from_id : Option Int) :
    List NormalizedOrg :=
  let rows :=
    match start_from_id with
    | some k => rows.filter (fun r => k ≤ r.id)
    | none => rows
  let normalized_orgs := normalizeLoop rows []
  match start_from_id with
  | some k => normalized_orgs.filter (fun o => k ≤ o.id)
  | none => normalized_orgs

/-! ### Timestamps -/

/-- A timezone-aware `datetime`: the calendar date (`.date()`, as an integer
day ordinal) and the time of day.  Comparison is lexicographic. -/
structure PyDateTime where
  date : Int
  tod : Nat
deriving DecidableEq, Repr

/-- Boolean `a <= b` on datetimes. -/
def PyDateTime.leb (a b : PyDateTime) : Bool :=
  decide (a.date < b.date ∨ (a.date = b.date ∧ a.tod ≤ b.tod))

/-! ### HTTP layer -/

/-- One HTTP response as the pipeline consumes it: the status code, the JSON
body parsed as a list (meaningful only for status 200), and whether
`response.links` carries a `next` relation. -/
structure HttpResponse (α : Type) where
  status : Nat
  body : List α
  hasNext : Bool
deriving DecidableEq, Repr

/-- The outcome of one `requests.get` call: a response, a
`requests.exceptions.Timeout`, or any other request exception. -/
inductive FetchEvent (α : Type) where
  | resp (r : HttpResponse α)
  | timeout
  | netErr
deriving DecidableEq, Repr

/-- What a pagination walk produced: the accumulated items, the number of HTTP
requests issued, the number of 200 pages consumed, and the total seconds slept
(60 per rate-limit backoff, 1 between pages). -/
structure WalkResult (α : Type) where
  items : List α
  requests : Nat
  pages : Nat
  sleepSecs : Nat
deriving DecidableEq, Repr

/-- One repository object of the GitHub JSON, restricted to the fields the
pipeline reads: `name`, `owner.login`, and `stargazers_count` (absent keys
modelled by `none`, read through `.get(_, 0)`). -/
structure RepoJson where
  name : String
  owner_login : String
  stargazers_count : Option Int
deriving DecidableEq, Repr

/-- Whether a pull-request object's `merged_at` string parses with
`datetime.fromisoformat` (`valid`) or raises (`malformed`). -/
inductive MergedAtField where
  | valid (t : PyDateTime)
  | malformed
deriving DecidableEq, Repr

/-- One pull-request object of the GitHub JSON, restricted to the fields the
pipeline reads; `merged_at = none` models JSON `null`. -/
structure PRJson where
  number : Int
  title : String
  merged_at : Option MergedAtField
deriving DecidableEq, Repr

/-! ### Paginated Fetcher
(`github_service.fetch_org_repos` and `github_service.fetch_repo_pr_data`;
the two loops are identical up to the page cap, so they share this walk) -/

/-- The `while url and page_count < max_pages` loop shared by
`fetch_org_repos` (cap 10) and `fetch_repo_pr_data` (cap 20).
`page_count` is incremented at the top of each iteration — before the request
— so a 403 retry consumes one unit of the page budget.  A 404 or any other
non-200 status returns the empty list, discarding `acc`; a timeout or request
exception breaks out keeping `acc`. -/
def paged_walk (max_pages : Nat) :
    List (FetchEvent α) → Nat → Bool → List α → WalkResult α
  | evs, page_count, hasUrl, acc =>
    if hasUrl = false ∨ max_pages ≤ page_count then ⟨acc, 0, 0, 0⟩
    else
      match evs with
      | [] => ⟨acc, 0, 0, 0⟩
      | .timeout :: _ => ⟨acc, 1, 0, 0⟩
      | .netErr :: _ => ⟨acc, 1, 0, 0⟩
      | .resp r :: rest =>
        if r.status = 403 then
          let w := paged_walk max_pages rest (page_count + 1) hasUrl acc
          ⟨w.items, w.requests + 1, w.pages, w.sleepSecs + 60⟩
        else if r.status = 404 then ⟨[], 1, 0, 0⟩
        else if r.status ≠ 200 then ⟨[], 1, 0, 0⟩
        else
          let w := paged_walk max_pages rest (page_count + 1) r.hasNext (acc ++ r.body)
          ⟨w.items, w.requests + 1, w.pages + 1, w.sleepSecs + 1⟩

/-- `repo.get("stargazers_count", 0)`. -/
def stars (r : RepoJson) : Int := r.stargazers_count.getD 0

/-- `github_service.fetch_org_repos`: walk up to 10 pages, then
`sorted(repos, key=stargazers, reverse=True)[:5]` (Python's sort is stable;
`reverse=True` keeps the original order of equal keys). -/
def fetch_org_repos (evs : List (FetchEvent RepoJson)) : List RepoJson :=
  (((paged_walk 10 evs 0 true []).items.mergeSort
    (fun a b => stars b ≤ stars a)).take 5)

/-- `github_service.fetch_repo_pr_data`: walk up to 20 pages, no sorting. -/
def fetch_repo_pr_data (evs : List (FetchEvent PRJson)) : List PRJson :=
  (paged_walk 20 evs 0 true []).items

/-! ### Merge Event Extractor
(`app/pipeline/fetch_merge_dates.py: fetch_merged_prs_for_repo`) -/

/-- One element of the `merged_prs` list built by
`fetch_merged_prs_for_repo`: the parsed merge timestamp, PR number, title,
and the repository name. -/
structure MergedPRRec where
  merged_at : PyDateTime
  number : Int
  title : String
  repo : String
deriving DecidableEq, Repr

/-- The `for pr in prs` body of `fetch_merged_prs_for_repo`: PRs without a
`merged_at` are skipped; unparsable timestamps are caught, logged, and
skipped; a merge time at or after the cutoff is recorded; one before the
cutoff returns immediately (second component `true`). -/
def process_prs (cutoff : PyDateTime) (repo_name : String) :
    List PRJson → List MergedPRRec → List MergedPRRec × Bool
  | [], acc => (acc, false)
  | pr :: rest, acc =>
    match pr.merged_at with
    | none => process_prs cutoff repo_name rest acc
    | some .malformed => process_prs cutoff repo_name rest acc
    | some (.valid merged_at) =>
      if PyDateTime.leb cutoff merged_at then
        process_prs cutoff repo_name rest
          (acc ++ [⟨merged_at, pr.number, pr.title, repo_name⟩])
      else (acc, true)

/-- The `while page <= max_pages` loop of `fetch_merged_prs_for_repo`
(`max_pages = 10`, `page` starts at 1).  Unlike `paged_walk`, a 403 retries
with `continue` without touching `page`, so the retry consumes no page
budget; a 404 or other non-200 status returns the empty list; an empty page,
an early cutoff exit, or a missing `next` link stops with the accumulated
records; a timeout or other exception breaks out keeping them. -/
def fetch_merged_prs_go (cutoff : PyDateTime) (repo_name : String) :
    List (FetchEvent PRJson) → Nat → List MergedPRRec → WalkResult MergedPRRec
  | evs, page, acc =>
    if 10 < page then ⟨acc, 0, 0, 0⟩
    else
      match evs with
      | [] => ⟨acc, 0, 0, 0⟩
      | .timeout :: _ => ⟨acc, 1, 0, 0⟩
      | .netErr :: _ => ⟨acc, 1, 0, 0⟩
      | .resp r :: rest =>
        if r.status = 403 then
          let w := fetch_merged_prs_go cutoff repo_name rest page acc
          ⟨w.items, w.requests + 1, w.pages, w.sleepSecs + 60⟩
        else if r.status = 404 then ⟨[], 1, 0, 0⟩
        else if r.status ≠ 200 then ⟨[], 1, 0, 0⟩
        else if r.body = [] then ⟨acc, 1, 1, 0⟩
        else
          let step := process_prs cutoff repo_name r.body acc
          if step.2 then ⟨step.1, 1, 1, 0⟩
          else if r.hasNext = false then ⟨step.1, 1, 1, 0⟩
          else
            let w := fetch_merged_prs_go cutoff repo_name rest (page + 1) step.1
            ⟨w.items, w.requests + 1, w.pages + 1, w.sleepSecs + 1⟩

/-- `fetch_merged_prs_for_repo`, given the cutoff (`utcnow − days`) and the
stream of HTTP outcomes. -/
def fetch_merged_prs_for_repo (cutoff : PyDateTime) (repo_name : String)
    (evs : List (FetchEvent PRJson)) : List MergedPRRec :=
  (fetch_merged_prs_go cutoff repo_name evs 1 []).items

/-- The record `fetch_merged_prs_for_repo` appends for a PR whose `merged_at`
parses (`none` when the PR would be skipped). -/
def pr_record (repo_name : String) (pr : PRJson) : Option MergedPRRec :=
  match pr.merged_at with
  | some (.valid t) => some ⟨t, pr.number, pr.title, repo_name⟩
  | _ => none

/-! ### MergeDate persistence
(`fetch_merge_dates.py: fetch_merge_dates_for_organization`, lines 151–193) -/

/-- One row of the `merge_dates` table (`app/models/merge_dates.py`). -/
structure MergeDateRow where
  organization_slug : String
  organization_name : String
  merge_date : Int
  merged_at : PyDateTime
  repository_name : String
  pull_request_number : Int
  created_at : Int
deriving DecidableEq, Repr

/-- The four-column filter of the duplicate check:
`organization_slug == slug ∧ merge_date == d ∧ pull_request_number == num ∧
repository_name == repo` — the natural key. -/
def merge_key_matches (r : MergeDateRow) (slug : String) (d : Int) (num : Int)
    (repo : String) : Bool :=
  r.organization_slug == slug && r.merge_date == d &&
    r.pull_request_number == num && r.repository_name == repo

/-- Whether some stored row carries the given natural key. -/
def has_merge_key (db : List MergeDateRow) (slug : String) (d : Int) (num : Int)
    (repo : String) : Bool :=
  db.any (fun r => merge_key_matches r slug d num repo)

/-- Whether some fetched PR in a batch carries the given natural key (the
slug being the organization the batch was fetched for). -/
def batch_has_key (prs : List MergedPRRec) (d : Int) (num : Int)
    (repo : String) : Bool :=
  prs.any (fun pr => pr.merged_at.date == d && pr.number == num && pr.repo == repo)

/-- The `for pr in all_merged_prs` loop: the session is configured with
`autoflush=False`, so the existence query sees only the committed rows `db`;
rows added by `session.add` accumulate as the pending list returned here, in
iteration order. -/
def store_pending (org_slug org_name : String) (now : Int)
    (db : List MergeDateRow) : List MergedPRRec → List MergeDateRow
  | [] => []
  | pr :: rest =>
    let merge_date := pr.merged_at.date
    if has_merge_key db org_slug merge_date pr.number pr.repo then
      store_pending org_slug org_name now db rest
    else
      { organization_slug := org_slug
        organization_name := org_name
        merge_date := merge_date
        merged_at := pr.merged_at
        repository_name := pr.repo
        pull_request_number := pr.number
        created_at := now } :: store_pending org_slug org_name now db rest

/-- The store phase of `fetch_merge_dates_for_organization` on the successful
commit path: the committed table afterwards, and the count of inserted rows
that the function returns. -/
def store_merge_dates (org_slug org_name : String) (now : Int)
    (db : List MergeDateRow) (prs : List MergedPRRec) : List MergeDateRow × Nat :=
  let pending := store_pending org_slug org_name now db prs
  (db ++ pending, pending.length)

/-! ### Metrics snapshot persistence and the Ingestion Orchestrator
(`app/pipeline/update_github_metrics.py: update_github_data` and
`fetch_merge_dates.py: fetch_all_merge_dates`) -/

/-- The dictionary returned by `fetch_github_org_data` (fields read through
`.get`, hence optional). -/
structure OrgData where
  followers : Option Int
  public_repos : Option Int
  bio : Option String
  fetched_at : Option Int
  total_prs : Option Int
  merged_prs : Option Int
  merge_frequency : Option ℚ
deriving DecidableEq, Repr

/-- One row of the `github_metrics` table (`app/models/github_metrics.py`). -/
structure GitHubMetricsRow where
  name : String
  slug : String
  github_followers : Option Int
  github_repos : Option Int
  github_bio : Option String
  fetched_at : Option Int
  pull_requests : Option Int
  merged_prs : Option Int
  merge_frequency : Option ℚ
deriving DecidableEq, Repr

/-- One row of the `historical_metrics` table
(`app/models/historical_metrics.py`). -/
structure HistoricalMetricsRow where
  organization_slug : String
  organization_name : String
  merge_frequency : ℚ
  total_prs : Int
  merged_prs : Int
  recorded_at : Int
deriving DecidableEq, Repr

/-- The two tables `update_github_data` writes. -/
structure MetricsDB where
  github_metrics : List GitHubMetricsRow
  historical_metrics : List HistoricalMetricsRow
deriving DecidableEq, Repr

/-- Update the first row matching the slug (`query.filter_by(slug=…).first()`
followed by field assignments). -/
def update_first (slug : String) (f : GitHubMetricsRow → GitHubMetricsRow) :
    List GitHubMetricsRow → List GitHubMetricsRow
  | [] => []
  | r :: rest =>
    if r.slug == slug then f r :: rest else r :: update_first slug f rest

/-- The body of one successful persist attempt: upsert the `github_metrics`
row for the slug, append one `historical_metrics` row, both applied by the
single `session.commit()`. -/
def upsert_metrics (github_slug display_name : String) (data : OrgData)
    (now : Int) (db : MetricsDB) : MetricsDB :=
  let gm :=
    if db.github_metrics.any (fun r => r.slug == github_slug) then
      update_first github_slug
        (fun r =>
          { r with
            name := display_name
            github_followers := data.followers
            github_repos := data.public_repos
            github_bio := data.bio
            fetched_at := data.fetched_at
            pull_requests := data.total_prs
            merged_prs := data.merged_prs
            merge_frequency := data.merge_frequency })
        db.github_metrics
    else
      db.github_metrics ++
        [{ name := display_name
           slug := github_slug
           github_followers := data.followers
           github_repos := data.public_repos
           github_bio := data.bio
           fetched_at := data.fetched_at
           pull_requests := data.total_prs
           merged_prs := data.merged_prs
           merge_frequency := data.merge_frequency }]
  let hist := db.historical_metrics ++
    [{ organization_slug := github_slug
       organization_name := display_name
       merge_frequency := (data.merge_frequency).getD 0
       total_prs := (data.total_prs).getD 0
       merged_prs := (data.merged_prs).getD 0
       recorded_at := now }]
  ⟨gm, hist⟩

/-- The outcome of one persist attempt, decided by the environment:
the transaction commits, raises `OperationalError`, or raises some other
exception. -/
inductive PersistOutcome where
  | success
  | opErr
  | otherErr
deriving DecidableEq, Repr

/-- What the `for attempt in range(retries)` loop produced: the committed
database, the number of attempts made, the seconds slept (5 per
`OperationalError`), and whether a commit succeeded. -/
structure PersistResult where
  db : MetricsDB
  attempts : Nat
  sleepSecs : Nat
  ok : Bool
deriving DecidableEq, Repr

/-- The retry loop of `update_github_data` (`retries = 3`): `success` commits
and breaks; `OperationalError` sleeps 5 s and moves to the next attempt;
any other exception breaks without retrying.  Each attempt opens a fresh
session, so a failed attempt leaves the database unchanged. -/
def persist_go (po : Nat → PersistOutcome) (commit : MetricsDB → MetricsDB)
    (db : MetricsDB) : Nat → Nat → PersistResult
  | 0, _ => ⟨db, 0, 0, false⟩
  | remaining + 1, attempt =>
    match po attempt with
    | .success => ⟨commit db, 1, 0, true⟩
    | .otherErr => ⟨db, 1, 0, false⟩
    | .opErr =>
      let r := persist_go po commit db remaining (attempt + 1)
      ⟨r.db, r.attempts + 1, r.sleepSecs + 5, r.ok⟩

/-- The persist step for one organization: up to `retries = 3` attempts of
committing the snapshot upsert plus the historical append. -/
def persist_org (github_slug display_name : String) (data : OrgData)
    (now : Int) (po : Nat → PersistOutcome) (db : MetricsDB) : PersistResult :=
  persist_go po (upsert_metrics github_slug display_name data now) db 3 0

/-- The outcome of the bounded-timeout fetch step for one organization:
`future.result(timeout=600)` raises a timeout, raises some other exception,
or returns (`none` models the falsy no-data result). -/
inductive FetchOutcome where
  | timeout
  | exc
  | ok (data : Option OrgData)
deriving DecidableEq, Repr

/-- How `update_github_data` left one organization. -/
inductive OrgStatus where
  | timedOut
  | fetchError
  | noData
  | updated
  | persistFailed
deriving DecidableEq, Repr

/-- The per-organization body of the `for org in orgs` loop of
`update_github_data`: every fetch failure is caught and skips to the next
organization; a successful fetch runs the persist step. -/
def org_step (now : Int) (f : FetchOutcome) (po : Nat → PersistOutcome)
    (org : NormalizedOrg) (db : MetricsDB) : MetricsDB × OrgStatus :=
  match f with
  | .timeout => (db, .timedOut)
  | .exc => (db, .fetchError)
  | .ok none => (db, .noData)
  | .ok (some data) =>
    let r := persist_org org.github_slug org.display_name data now po db
    (r.db, if r.ok then .updated else .persistFailed)

/-- `update_github_data`'s batch loop over the organization list, with the
per-organization fetch and persist outcomes supplied by oracles.  Returns the
final database and one status per organization, in order. -/
def update_github_data (now : Int) (fOracle : NormalizedOrg → FetchOutcome)
    (pOracle : NormalizedOrg → Nat → PersistOutcome) :
    List NormalizedOrg → MetricsDB → MetricsDB × List OrgStatus
  | [], db => (db, [])
  | org :: rest, db =>
    let step := org_step now (fOracle org) (pOracle org) org db
    let tail := update_github_data now fOracle pOracle rest step.1
    (tail.1, step.2 :: tail.2)

/-- The outcome of `fetch_merge_dates_for_organization` for one organization
as seen by the batch loop of `fetch_all_merge_dates`: a returned count, or an
exception. -/
inductive MergeFetchOutcome where
  | raises
  | returns (count : Nat)
deriving DecidableEq, Repr

/-- How `fetch_all_merge_dates` left one organization. -/
inductive MergeOrgStatus where
  | errored
  | counted (count : Nat)
deriving DecidableEq, Repr

/-- The `for slug, name in orgs` loop of `fetch_all_merge_dates`: any
exception from a single organization is caught and the loop continues.
Returns the total count and one status per organization, in order. -/
def fetch_all_merge_dates (oracle : String × String → MergeFetchOutcome) :
    List (String × String) → Nat × List MergeOrgStatus
  | [] => (0, [])
  | org :: rest =>
    let tail := fetch_all_merge_dates oracle rest
    match oracle org with
    | .raises => (tail.1, .errored :: tail.2)
    | .returns c => (tail.1 + c, .counted c :: tail.2)

/-! ### Metrics computation (`github_service.calculate_metrics`) -/

/-- Python `round` rounds half to even. -/
def round_half_even (q : ℚ) : ℤ :=
  let f := ⌊q⌋
  let frac := q - f
  if frac < 1 / 2 then f
  else if 1 / 2 < frac then f + 1
  else if f % 2 = 0 then f else f + 1

/-- Python `round(q, 3)`. -/
def pyRound3 (q : ℚ) : ℚ := (round_half_even (q * 1000) : ℚ) / 1000

/-- The dictionary returned by `calculate_metrics`. -/
structure MetricsOut where
  total_prs : Nat
  merged_prs : Nat
  merge_frequency : ℚ
deriving DecidableEq, Repr

/-- `github_service.calculate_metrics`, with the per-repository PR fetch
supplied as an oracle (it is a network call): sums `len(prs)` and the count
of PRs with a truthy `merged_at` over the repositories, then
`merged / total` when `total > 0` (else 0), rounded to 3 decimals. -/
def calculate_metrics (repos : List RepoJson)
    (fetch_pr : String → String → List PRJson) : MetricsOut :=
  let total_prs := (repos.map
    (fun repo => (fetch_pr repo.owner_login repo.name).length)).sum
  let merged_prs := (repos.map
    (fun repo => (fetch_pr repo.owner_login repo.name).countP
      (fun pr => pr.merged_at.isSome))).sum
  let merge_frequency : ℚ :=
    if 0 < total_prs then (merged_prs : ℚ) / (total_prs : ℚ) else 0
  { total_prs := total_prs, merged_prs := merged_prs,
    merge_frequency := pyRound3 merge_frequency }

/-! ### Helper lemmas -/

theorem uint32_le_iff_toNat_le (a b : UInt32) : a ≤ b ↔ a.toNat ≤ b.toNat := by
  rw [UInt32.le_def, BitVec.le_def]
  rfl

theorem char_isUpper_iff (c : Char) : c.isUpper = true ↔ 65 ≤ c.toNat ∧ c.toNat ≤ 90 := by
  simp only [Char.isUpper, Bool.and_eq_true, decide_eq_true_eq, ge_iff_le]
  rw [uint32_le_iff_toNat_le, uint32_le_iff_toNat_le]
  exact ⟨fun ⟨h1, h2⟩ => ⟨h1, h2⟩, fun ⟨h1, h2⟩ => ⟨h1, h2⟩⟩

theorem toNat_ofNat_valid (n : Nat) (h : n < 55296) : (Char.ofNat n).toNat = n := by
  rw [Char.ofNat, dif_pos (Or.inl h : n.isValidChar)]
  rfl

theorem toNat_toLower (c : Char) :
    (Char.toLower c).toNat =
      if 65 ≤ c.toNat ∧ c.toNat ≤ 90 then c.toNat + 32 else c.toNat := by
  unfold Char.toLower
  by_cases h : 65 ≤ c.toNat ∧ c.toNat ≤ 90
  · rw [if_pos h, if_pos ⟨h.1, h.2⟩, toNat_ofNat_valid _ (by omega)]
  · rw [if_neg h, if_neg (by exact fun hc => h ⟨hc.1, hc.2⟩)]

theorem toLower_not_isUpper (c : Char) : (Char.toLower c).isUpper = false := by
  rw [Bool.eq_false_iff]
  intro hu
  rw [char_isUpper_iff, toNat_toLower] at hu
  by_cases h : 65 ≤ c.toNat ∧ c.toNat ≤ 90
  · rw [if_pos h] at hu; omega
  · rw [if_neg h] at hu; omega

theorem toLower_fixes_low (c : Char) (d : Char)
    (hd : d.toNat < 97 ∨ 122 < d.toNat) : Char.toLower c = d → c = d := by
  intro h
  have hn : (Char.toLower c).toNat = d.toNat := by rw [h]
  rw [toNat_toLower] at hn
  by_cases hc : 65 ≤ c.toNat ∧ c.toNat ≤ 90
  · rw [if_pos hc] at hn; omega
  · rw [if_neg hc] at hn
    exact Char.ext (UInt32.toNat.inj hn)

theorem getLast?_cons_eq_getLastD (p0 : String) (parts : List String) :
    (p0 :: parts).getLast? = some ((p0 :: parts).getLastD p0) := by
  induction parts generalizing p0 with
  | nil => rfl
  | cons q qs ih => simpa using ih q

/-! ### Claim C6 -/

/-- C6: for every profile URL whose (lowercased) host contains the expected
`github.com` domain and whose path splits as `/orgs/{x}/…`, the normalizer
derives handle `x`; for every URL whose host does not match, it derives the
last non-empty path segment. -/
theorem extract_org_handle_spec (u : ParsedUrl) :
    (∀ x rest, pyContains (pyLower u.netloc) "github.com" = true →
        path_parts u.path = "orgs" :: x :: rest →
        extract_org_name_from_url (some u) = some x) ∧
    (pyContains (pyLower u.netloc) "github.com" = false →
        extract_org_name_from_url (some u) = (path_parts u.path).getLast?) := by
  constructor
  · intro x rest hc hp
    simp only [extract_org_name_from_url, hp]
    rw [if_neg (by simp [hc]), if_pos (by decide)]
  · intro hc
    cases hp : path_parts u.path with
    | nil => simp only [extract_org_name_from_url, hp]; rfl
    | cons p0 parts =>
      simp only [extract_org_name_from_url, hp]
      rw [if_pos (by simp [hc]), getLast?_cons_eq_getLastD]

/-- Witness for `extract_org_handle_spec`: both branches evaluated on
concrete URLs. -/
theorem extract_org_handle_spec_witness :
    extract_org_name_from_url (some ⟨"github.com", "/orgs/tensorflow/repos"⟩) =
      some "tensorflow" ∧
    extract_org_name_from_url (some ⟨"gitlab.com", "/group/project"⟩) =
      some "project" := by
  constructor
  · exact (extract_org_handle_spec ⟨"github.com", "/orgs/tensorflow/repos"⟩).1
      "tensorflow" ["repos"] (by decide) (by decide)
  · have h := (extract_org_handle_spec ⟨"gitlab.com", "/group/project"⟩).2 (by decide)
    rw [h]
    decide

/-! ### Claim C7 -/

theorem truthy_if_shape (g : Option String) (gs : String)
    (h : (if strTruthy g = true then some (postProcessSlug (g.getD "")) else g) = some gs)
    (hne : gs ≠ "") : ∃ s, gs = postProcessSlug s := by
  split at h
  · exact ⟨_, (Option.some.inj h).symm⟩
  · rename_i hfalse
    rw [h] at hfalse
    simp [strTruthy, hne] at hfalse

theorem derive_slug_shape (row : GSoCOrgRow) (gs : String)
    (h : derive_github_slug row = some gs) (hne : gs ≠ "") :
    ∃ s, gs = postProcessSlug s := by
  simp only [derive_github_slug] at h
  exact truthy_if_shape _ gs h hne

theorem mem_normalizeLoop_slug (rows : List GSoCOrgRow) (seen : List String)
    (org : NormalizedOrg) (h : org ∈ normalizeLoop rows seen) :
    ∃ s, org.github_slug = postProcessSlug s := by
  induction rows generalizing seen with
  | nil => simp [normalizeLoop] at h
  | cons row rest ih =>
    simp only [normalizeLoop] at h
    cases hd : derive_github_slug row with
    | none => simp only [hd] at h; exact ih _ h
    | some gs =>
      simp only [hd] at h
      by_cases hgs : gs = ""
      · rw [if_pos hgs] at h; exact ih _ h
      · rw [if_neg hgs] at h
        by_cases hseen : seen.contains gs
        · rw [if_pos hseen] at h; exact ih _ h
        · rw [if_neg hseen] at h
          cases h with
          | head => exact derive_slug_shape row gs hd hgs
          | tail _ h2 => exact ih _ h2

theorem replace_space_char (t : String) (d : Char)
    (hd : d ∈ (pyReplaceChar ' ' '-' t).data) : d ≠ ' ' := by
  simp only [pyReplaceChar, List.mem_map] at hd
  obtain ⟨e, _, he⟩ := hd
  by_cases hsp : e == ' '
  · rw [if_pos hsp] at he; rw [← he]; decide
  · rw [if_neg hsp] at he
    rw [← he]
    exact ne_of_beq_false (Bool.of_not_eq_true hsp)

theorem head?_take_of_some (l : List α) (n : Nat) (a : α)
    (h : (l.take n).head? = some a) : l.head? = some a := by
  cases l with
  | nil => simp at h
  | cons x xs =>
    cases n with
    | zero => simp at h
    | succ m => simpa using h

theorem postProcessSlug_chars (s : String) (c : Char)
    (hc : c ∈ (postProcessSlug s).data) : c.isUpper = false ∧ c ≠ ' ' := by
  have hmem : c ∈ (pyLower (pyReplaceChar ' ' '-' (pyLstrip '@' s))).data := by
    simp only [postProcessSlug] at hc
    split at hc
    · exact List.mem_of_mem_take hc
    · exact hc
  simp only [pyLower, List.mem_map] at hmem
  obtain ⟨d, hd, rfl⟩ := hmem
  refine ⟨toLower_not_isUpper d, ?_⟩
  intro hsp
  exact replace_space_char _ d hd (toLower_fixes_low d ' ' (by decide) hsp)

theorem postProcessSlug_head (s : String) :
    (postProcessSlug s).data.head? ≠ some '@' := by
  intro h
  have hu : (pyLower (pyReplaceChar ' ' '-' (pyLstrip '@' s))).data.head? = some '@' := by
    simp only [postProcessSlug] at h
    split at h
    · exact head?_take_of_some _ _ _ h
    · exact h
  simp only [pyLower, pyReplaceChar, pyLstrip, List.head?_map] at hu
  cases he : (s.data.dropWhile (fun x => x == '@')).head? with
  | none => rw [he] at hu; simp at hu
  | some e =>
    rw [he] at hu
    simp only [Option.map_some'] at hu
    have hlow := toLower_fixes_low _ '@' (by decide) (Option.some.inj hu)
    have he2 : e = '@' := by
      by_cases hsp : e == ' '
      · rw [if_pos hsp] at hlow; exact absurd hlow (by decide)
      · rwa [if_neg hsp] at hlow
    have := List.head?_dropWhile_not (fun x => x == '@') s.data
    rw [he] at this
    simp [he2] at this

theorem postProcessSlug_git (s : String)
    (h : pyEndsWith (postProcessSlug s) ".git" = true) :
    pyEndsWith (pyLower (pyReplaceChar ' ' '-' (pyLstrip '@' s))) ".git.git" = true := by
  simp only [postProcessSlug] at h
  split at h
  · rename_i hends
    rw [pyEndsWith, List.isSuffixOf_iff_suffix] at hends h ⊢
    obtain ⟨q, hq⟩ := h
    obtain ⟨p, hp⟩ := hends
    refine ⟨q, ?_⟩
    have hdata : (pyDropRight (pyLower (pyReplaceChar ' ' '-' (pyLstrip '@' s))) 4).data = p := by
      simp only [pyDropRight]
      rw [← hp]
      have h4 : (p ++ ".git".data).length - 4 = p.length := by
        simp [List.length_append]
      rw [h4]
      exact List.take_left' rfl
    rw [hdata] at hq
    rw [← hp, ← hq]
    have : (".git.git" : String).data = ".git".data ++ ".git".data := by decide
    rw [this, ← List.append_assoc]
  · rename_i hends
    exact absurd h hends

/-- C7 falsified as stated: only one trailing `.git` is stripped, so a
record whose fallback slug is `repo.git.git` is emitted with the handle
`repo.git`, which still ends in `.git`. -/
theorem normalizer_trailing_git_counterexample :
    get_organization_list [⟨1, some "Repo", none, some "repo.git.git"⟩] none =
      [⟨1, "Repo", "repo.git"⟩] ∧
    pyEndsWith "repo.git" ".git" = true := by
  constructor
  · decide
  · decide

/-- C7 amended: every handle emitted by `get_organization_list` is lowercase
(contains no uppercase letter), has no leading `@`, and contains no space;
and exactly one trailing `.git` suffix is removed, so an emitted handle can
end in `.git` only when the handle before suffix-stripping ended in
`.git.git`. -/
theorem normalizer_handle_normal_form :
    (∀ rows start org, org ∈ get_organization_list rows start →
      (∀ c ∈ org.github_slug.data, c.isUpper = false) ∧
      org.github_slug.data.head? ≠ some '@' ∧
      (' ' ∈ org.github_slug.data → False)) ∧
    (∀ s, pyEndsWith (postProcessSlug s) ".git" = true →
      pyEndsWith (pyLower (pyReplaceChar ' ' '-' (pyLstrip '@' s))) ".git.git" = true) := by
  constructor
  · intro rows start org h
    have hloop : org ∈ normalizeLoop
        (match start with
         | some k => rows.filter (fun r => k ≤ r.id)
         | none => rows) [] := by
      simp only [get_organization_list] at h
      cases start with
      | none => exact h
      | some k => exact (List.mem_filter.mp h).1
    obtain ⟨s, hs⟩ := mem_normalizeLoop_slug _ _ _ hloop
    rw [hs]
    refine ⟨fun c hc => (postProcessSlug_chars s c hc).1, postProcessSlug_head s,
      fun hc => (postProcessSlug_chars s _ hc).2 rfl⟩
  · exact postProcessSlug_git

/-- Witness for `normalizer_handle_normal_form`, applied to a concrete batch
(an organization record with slug `@MyOrg Name`) and to the handle
`x.git.git`. -/
theorem normalizer_handle_normal_form_witness :
    ((∀ c ∈ ("myorg-name" : String).data, c.isUpper = false) ∧
      ("myorg-name" : String).data.head? ≠ some '@' ∧
      (' ' ∈ ("myorg-name" : String).data → False)) ∧
    pyEndsWith (pyLower (pyReplaceChar ' ' '-' (pyLstrip '@' "x.git.git"))) ".git.git" = true := by
  constructor
  · exact normalizer_handle_normal_form.1
      [⟨1, some "A", none, some "@MyOrg Name"⟩] none ⟨1, "A", "myorg-name"⟩ (by decide)
  · exact normalizer_handle_normal_form.2 "x.git.git" (by decide)

/-! ### Step lemmas for the pagination walks -/

theorem paged_walk_halt {α : Type} (max_pages : Nat) (evs : List (FetchEvent α))
    (page_count : Nat) (hasUrl : Bool) (acc : List α)
    (h : hasUrl = false ∨ max_pages ≤ page_count) :
    paged_walk max_pages evs page_count hasUrl acc = ⟨acc, 0, 0, 0⟩ := by
  rw [paged_walk.eq_def]
  dsimp only
  rw [if_pos h]

theorem paged_walk_403 {α : Type} (max_pages : Nat) (r : HttpResponse α)
    (rest : List (FetchEvent α)) (page_count : Nat) (hasUrl : Bool) (acc : List α)
    (hstop : ¬ (hasUrl = false ∨ max_pages ≤ page_count)) (h403 : r.status = 403) :
    paged_walk max_pages (.resp r :: rest) page_count hasUrl acc =
      { items := (paged_walk max_pages rest (page_count + 1) hasUrl acc).items
        requests := (paged_walk max_pages rest (page_count + 1) hasUrl acc).requests + 1
        pages := (paged_walk max_pages rest (page_count + 1) hasUrl acc).pages
        sleepSecs := (paged_walk max_pages rest (page_count + 1) hasUrl acc).sleepSecs + 60 } := by
  conv_lhs => simp only [paged_walk]
  rw [if_neg hstop, if_pos h403]

theorem paged_walk_200 {α : Type} (max_pages : Nat) (r : HttpResponse α)
    (rest : List (FetchEvent α)) (page_count : Nat) (hasUrl : Bool) (acc : List α)
    (hstop : ¬ (hasUrl = false ∨ max_pages ≤ page_count)) (h200 : r.status = 200) :
    paged_walk max_pages (.resp r :: rest) page_count hasUrl acc =
      { items := (paged_walk max_pages rest (page_count + 1) r.hasNext (acc ++ r.body)).items
        requests := (paged_walk max_pages rest (page_count + 1) r.hasNext (acc ++ r.body)).requests + 1
        pages := (paged_walk max_pages rest (page_count + 1) r.hasNext (acc ++ r.body)).pages + 1
        sleepSecs := (paged_walk max_pages rest (page_count + 1) r.hasNext (acc ++ r.body)).sleepSecs + 1 } := by
  conv_lhs => simp only [paged_walk]
  rw [if_neg hstop, if_neg (by simp [h200]), if_neg (by simp [h200]), if_neg (by simp [h200])]

theorem paged_walk_transport {α : Type} (max_pages : Nat)
    (e : FetchEvent α) (rest : List (FetchEvent α)) (page_count : Nat)
    (hasUrl : Bool) (acc : List α)
    (hstop : ¬ (hasUrl = false ∨ max_pages ≤ page_count))
    (he : e = .timeout ∨ e = .netErr) :
    paged_walk max_pages (e :: rest) page_count hasUrl acc = ⟨acc, 1, 0, 0⟩ := by
  cases he with
  | inl h => subst h; simp only [paged_walk]; rw [if_neg hstop]
  | inr h => subst h; simp only [paged_walk]; rw [if_neg hstop]

theorem fetch_merged_go_halt (cutoff : PyDateTime) (repo_name : String)
    (evs : List (FetchEvent PRJson)) (page : Nat) (acc : List MergedPRRec)
    (hp : 10 < page) :
    fetch_merged_prs_go cutoff repo_name evs page acc = ⟨acc, 0, 0, 0⟩ := by
  rw [fetch_merged_prs_go.eq_def]
  dsimp only
  rw [if_pos hp]

theorem fetch_merged_go_403 (cutoff : PyDateTime) (repo_name : String)
    (r : HttpResponse PRJson) (rest : List (FetchEvent PRJson)) (page : Nat)
    (acc : List MergedPRRec) (hp : ¬ 10 < page) (h403 : r.status = 403) :
    fetch_merged_prs_go cutoff repo_name (.resp r :: rest) page acc =
      { items := (fetch_merged_prs_go cutoff repo_name rest page acc).items
        requests := (fetch_merged_prs_go cutoff repo_name rest page acc).requests + 1
        pages := (fetch_merged_prs_go cutoff repo_name rest page acc).pages
        sleepSecs := (fetch_merged_prs_go cutoff repo_name rest page acc).sleepSecs + 60 } := by
  conv_lhs => simp only [fetch_merged_prs_go]
  rw [if_neg hp, if_pos h403]

theorem paged_walk_nil {α : Type} (max_pages page_count : Nat) (hasUrl : Bool)
    (acc : List α) :
    paged_walk max_pages ([] : List (FetchEvent α)) page_count hasUrl acc = ⟨acc, 0, 0, 0⟩ := by
  rw [paged_walk.eq_def]
  dsimp only
  split
  · rfl
  · rfl

theorem paged_walk_abort {α : Type} (max_pages : Nat) (r : HttpResponse α)
    (rest : List (FetchEvent α)) (page_count : Nat) (hasUrl : Bool) (acc : List α)
    (hstop : ¬ (hasUrl = false ∨ max_pages ≤ page_count))
    (h403 : r.status ≠ 403) (h200 : r.status ≠ 200) :
    paged_walk max_pages (.resp r :: rest) page_count hasUrl acc = ⟨[], 1, 0, 0⟩ := by
  conv_lhs => simp only [paged_walk]
  rw [if_neg hstop, if_neg h403]
  by_cases h404 : r.status = 404
  · rw [if_pos h404]
  · rw [if_neg h404, if_pos h200]

theorem fetch_merged_go_nil (cutoff : PyDateTime) (repo_name : String)
    (page : Nat) (acc : List MergedPRRec) :
    fetch_merged_prs_go cutoff repo_name [] page acc = ⟨acc, 0, 0, 0⟩ := by
  rw [fetch_merged_prs_go.eq_def]
  dsimp only
  split
  · rfl
  · rfl

theorem fetch_merged_go_abort (cutoff : PyDateTime) (repo_name : String)
    (r : HttpResponse PRJson) (rest : List (FetchEvent PRJson)) (page : Nat)
    (acc : List MergedPRRec) (hp : ¬ 10 < page)
    (h403 : r.status ≠ 403) (h200 : r.status ≠ 200) :
    fetch_merged_prs_go cutoff repo_name (.resp r :: rest) page acc = ⟨[], 1, 0, 0⟩ := by
  conv_lhs => simp only [fetch_merged_prs_go]
  rw [if_neg hp, if_neg h403]
  by_cases h404 : r.status = 404
  · rw [if_pos h404]
  · rw [if_neg h404, if_pos h200]

theorem fetch_merged_go_transport (cutoff : PyDateTime) (repo_name : String)
    (e : FetchEvent PRJson) (rest : List (FetchEvent PRJson)) (page : Nat)
    (acc : List MergedPRRec) (hp : ¬ 10 < page)
    (he : e = .timeout ∨ e = .netErr) :
    fetch_merged_prs_go cutoff repo_name (e :: rest) page acc = ⟨acc, 1, 0, 0⟩ := by
  cases he with
  | inl h => subst h; simp only [fetch_merged_prs_go]; rw [if_neg hp]
  | inr h => subst h; simp only [fetch_merged_prs_go]; rw [if_neg hp]

theorem fetch_merged_go_200_early (cutoff : PyDateTime) (repo_name : String)
    (r : HttpResponse PRJson) (rest : List (FetchEvent PRJson)) (page : Nat)
    (acc : List MergedPRRec) (hp : ¬ 10 < page) (h200 : r.status = 200)
    (hbody : ¬ r.body = [])
    (hearly : (process_prs cutoff repo_name r.body acc).2 = true) :
    fetch_merged_prs_go cutoff repo_name (.resp r :: rest) page acc =
      ⟨(process_prs cutoff repo_name r.body acc).1, 1, 1, 0⟩ := by
  conv_lhs => simp only [fetch_merged_prs_go]
  rw [if_neg hp, if_neg (by simp [h200]), if_neg (by simp [h200]),
    if_neg (by simp [h200]), if_neg hbody]
  simp only [hearly, if_true]

/-! ### Claim C2 -/

/-- C2 falsified as stated: after a 200 page that accumulated one repository,
a 500 response makes `fetch_org_repos` return the empty list — the
accumulated page is discarded, not returned. -/
theorem fetch_other_status_counterexample :
    fetch_org_repos
      [.resp ⟨200, [⟨"repo1", "org1", some 10⟩], true⟩, .resp ⟨500, [], false⟩] = [] ∧
    ([] : List RepoJson) ≠ [⟨"repo1", "org1", some 10⟩] := by
  constructor
  · have h : (paged_walk 10
        [.resp ⟨200, [(⟨"repo1", "org1", some 10⟩ : RepoJson)], true⟩,
          .resp ⟨500, [], false⟩] 0 true []).items = [] := by decide
    simp only [fetch_org_repos, h, List.mergeSort_nil, List.take_nil]
  · decide

/-- C2 amended: when a page request returns a status other than 200, 403, or
404, every paginated walk aborts and returns the empty list, discarding the
items accumulated from previously fetched pages; accumulated items are kept
(only) when the walk ends by a transport-level failure (timeout or request
exception) or by exhausting its pages. -/
theorem fetch_other_status_discards :
    (∀ (α : Type) (r : HttpResponse α) (evs : List (FetchEvent α))
        (max_pages page_count : Nat) (acc : List α),
      r.status ≠ 200 → r.status ≠ 403 → page_count < max_pages →
      (paged_walk max_pages (.resp r :: evs) page_count true acc).items = []) ∧
    (∀ (cutoff : PyDateTime) (repo_name : String) (r : HttpResponse PRJson)
        (evs : List (FetchEvent PRJson)) (page : Nat) (acc : List MergedPRRec),
      r.status ≠ 200 → r.status ≠ 403 → page ≤ 10 →
      (fetch_merged_prs_go cutoff repo_name (.resp r :: evs) page acc).items = []) ∧
    (∀ (α : Type) (evs : List (FetchEvent α)) (max_pages page_count : Nat)
        (acc : List α), page_count < max_pages →
      (paged_walk max_pages (.timeout :: evs) page_count true acc).items = acc) ∧
    (∀ (cutoff : PyDateTime) (repo_name : String)
        (evs : List (FetchEvent PRJson)) (page : Nat) (acc : List MergedPRRec),
      page ≤ 10 →
      (fetch_merged_prs_go cutoff repo_name (.timeout :: evs) page acc).items = acc) := by
  refine ⟨?_, ?_, ?_, ?_⟩
  · intro α r evs max_pages page_count acc h200 h403 hpc
    rw [paged_walk_abort _ _ _ _ _ _ (by simp; omega) h403 h200]
  · intro cutoff repo_name r evs page acc h200 h403 hp
    rw [fetch_merged_go_abort _ _ _ _ _ _ (by omega) h403 h200]
  · intro α evs max_pages page_count acc hpc
    rw [paged_walk_transport _ _ _ _ _ _ (by simp; omega) (Or.inl rfl)]
  · intro cutoff repo_name evs page acc hp
    rw [fetch_merged_go_transport _ _ _ _ _ _ (by omega) (Or.inl rfl)]

/-- Witness for `fetch_other_status_discards`: all four branches evaluated on
concrete streams and accumulators. -/
theorem fetch_other_status_discards_witness :
    (paged_walk 10 [FetchEvent.resp ⟨500, [], false⟩] 0 true
      [(⟨"r", "o", none⟩ : RepoJson)]).items = [] ∧
    (fetch_merged_prs_go ⟨0, 0⟩ "r" [FetchEvent.resp ⟨500, [], false⟩] 1
      [⟨⟨1, 0⟩, 1, "t", "r"⟩]).items = [] ∧
    (paged_walk 10 [FetchEvent.timeout] 0 true
      [(⟨"r", "o", none⟩ : RepoJson)]).items = [⟨"r", "o", none⟩] ∧
    (fetch_merged_prs_go ⟨0, 0⟩ "r" [FetchEvent.timeout] 1
      [⟨⟨1, 0⟩, 1, "t", "r"⟩]).items = [⟨⟨1, 0⟩, 1, "t", "r"⟩] := by
  refine ⟨?_, ?_, ?_, ?_⟩
  · exact fetch_other_status_discards.1 RepoJson ⟨500, [], false⟩ [] 10 0 _
      (by decide) (by decide) (by decide)
  · exact fetch_other_status_discards.2.1 ⟨0, 0⟩ "r" ⟨500, [], false⟩ [] 1 _
      (by decide) (by decide) (by decide)
  · exact fetch_other_status_discards.2.2.1 RepoJson [] 10 0 _ (by decide)
  · exact fetch_other_status_discards.2.2.2 ⟨0, 0⟩ "r" [] 1 _ (by decide)

/-! ### Claim C3 -/

/-- C3 falsified as stated: in `fetch_org_repos` ten interleaved 403 responses
reduce the number of distinct pages fetched from 1 to 0 — the 403 retry there
consumes the page-count budget. -/
theorem rate_limit_budget_counterexample :
    (paged_walk 10 [FetchEvent.resp ⟨200, [(⟨"r1", "o", some 1⟩ : RepoJson)], false⟩]
      0 true []).pages = 1 ∧
    (paged_walk 10 (List.replicate 10 (FetchEvent.resp (⟨403, [], false⟩ : HttpResponse RepoJson)) ++
      [FetchEvent.resp ⟨200, [(⟨"r1", "o", some 1⟩ : RepoJson)], false⟩])
      0 true []).pages = 0 := by
  exact ⟨by decide, by decide⟩

/-- C3 amended: in `fetch_merged_prs_for_repo` a 403 response sleeps 60 s and
retries the same request without consuming the page budget — any number of
leading 403 responses changes neither the items returned nor the number of
pages fetched; in `fetch_org_repos` and `fetch_repo_pr_data` each 403 retry
consumes one unit of the page budget, so `max_pages` consecutive 403
responses exhaust the walk with zero pages fetched and 60 s of sleep per
retry. -/
theorem rate_limit_retry_budget :
    (∀ (cutoff : PyDateTime) (repo_name : String) (r : HttpResponse PRJson)
        (n : Nat) (evs : List (FetchEvent PRJson)) (page : Nat)
        (acc : List MergedPRRec), r.status = 403 →
      (fetch_merged_prs_go cutoff repo_name
          (List.replicate n (.resp r) ++ evs) page acc).items =
        (fetch_merged_prs_go cutoff repo_name evs page acc).items ∧
      (fetch_merged_prs_go cutoff repo_name
          (List.replicate n (.resp r) ++ evs) page acc).pages =
        (fetch_merged_prs_go cutoff repo_name evs page acc).pages) ∧
    (∀ (α : Type) (r : HttpResponse α) (max_pages page_count n : Nat)
        (rest : List (FetchEvent α)) (acc : List α),
      r.status = 403 → page_count + n = max_pages →
      paged_walk max_pages (List.replicate n (.resp r) ++ rest) page_count true acc =
        ⟨acc, n, 0, 60 * n⟩) := by
  constructor
  · intro cutoff repo_name r n evs page acc h403
    induction n generalizing page with
    | zero => simp
    | succ m ih =>
      by_cases hp : 10 < page
      · rw [fetch_merged_go_halt _ _ _ _ _ hp, fetch_merged_go_halt _ _ _ _ _ hp]
        exact ⟨rfl, rfl⟩
      · rw [List.replicate_succ, List.cons_append,
          fetch_merged_go_403 _ _ _ _ _ _ hp h403]
        exact ⟨(ih page).1, (ih page).2⟩
  · intro α r max_pages page_count n rest acc h403 hn
    induction n generalizing page_count with
    | zero =>
      simp only [List.replicate_zero, List.nil_append]
      rw [paged_walk_halt _ _ _ _ _ (Or.inr (by omega))]
    | succ m ih =>
      rw [List.replicate_succ, List.cons_append,
        paged_walk_403 _ _ _ _ _ _ (by simp; omega) h403,
        ih (page_count + 1) (by omega)]
      simp [Nat.mul_succ]

/-- Witness for `rate_limit_retry_budget`: three 403 responses ahead of a 200
page leave the merged-PR walk unchanged, while ten 403 responses exhaust the
repository-listing walk. -/
theorem rate_limit_retry_budget_witness :
    ((fetch_merged_prs_go ⟨0, 0⟩ "r"
        (List.replicate 3 (.resp ⟨403, [], false⟩) ++
          [FetchEvent.resp ⟨200, [⟨1, "t", some (.valid ⟨1, 0⟩)⟩], false⟩]) 1 []).items =
      (fetch_merged_prs_go ⟨0, 0⟩ "r"
        [FetchEvent.resp ⟨200, [⟨1, "t", some (.valid ⟨1, 0⟩)⟩], false⟩] 1 []).items) ∧
    paged_walk 10 (List.replicate 10 (.resp (⟨403, [], false⟩ : HttpResponse RepoJson)))
      0 true [] = ⟨[], 10, 0, 600⟩ := by
  constructor
  · exact (rate_limit_retry_budget.1 ⟨0, 0⟩ "r" ⟨403, [], false⟩ 3 _ 1 [] (by decide)).1
  · have h := rate_limit_retry_budget.2 RepoJson ⟨403, [], false⟩ 10 0 10
      ([] : List (FetchEvent RepoJson)) [] (by decide) (by decide)
    simpa using h

/-! ### Claim C4 -/

/-- C4 falsified as stated: eleven consecutive 403 responses make
`fetch_merged_prs_for_repo` issue eleven HTTP requests — more than its page
cap of 10, so its rate-limit retries are not bounded by the page cap. -/
theorem merged_walk_cap_counterexample :
    (fetch_merged_prs_go ⟨0, 0⟩ "repo"
      (List.replicate 11 (FetchEvent.resp (⟨403, [], false⟩ : HttpResponse PRJson)))
      1 []).requests = 11 ∧ ¬ (11 ≤ 10) := by
  exact ⟨by decide, by decide⟩

/-- C4 amended: `fetch_org_repos` and `fetch_repo_pr_data` issue at most
`max_pages − page_count` (so 10 resp. 20 from the start) HTTP requests on
every response stream, hence always stop; `fetch_merged_prs_for_repo`'s 403
retries are not bounded by its page cap: a run of `n` 403 responses costs `n`
requests for every `n`, so that walk ends only when the 403 run does. -/
theorem fetch_termination_bounds :
    (∀ (α : Type) (evs : List (FetchEvent α)) (max_pages page_count : Nat)
        (hasUrl : Bool) (acc : List α),
      (paged_walk max_pages evs page_count hasUrl acc).requests ≤ max_pages - page_count) ∧
    (∀ (cutoff : PyDateTime) (repo_name : String) (r : HttpResponse PRJson)
        (n : Nat), r.status = 403 →
      (fetch_merged_prs_go cutoff repo_name (List.replicate n (.resp r)) 1 []).requests = n) := by
  constructor
  · intro α evs
    induction evs with
    | nil =>
      intro max_pages page_count hasUrl acc
      rw [paged_walk_nil]
      simp
    | cons e es ih =>
      intro max_pages page_count hasUrl acc
      by_cases hstop : hasUrl = false ∨ max_pages ≤ page_count
      · rw [paged_walk_halt _ _ _ _ _ hstop]
        simp
      · have hpc : page_count < max_pages := by
          rcases not_or.mp hstop with ⟨h1, h2⟩
          omega
        cases e with
        | timeout =>
          rw [paged_walk_transport _ _ _ _ _ _ hstop (Or.inl rfl)]
          simp
          omega
        | netErr =>
          rw [paged_walk_transport _ _ _ _ _ _ hstop (Or.inr rfl)]
          simp
          omega
        | resp r =>
          by_cases h403 : r.status = 403
          · rw [paged_walk_403 _ _ _ _ _ _ hstop h403]
            have hr := ih max_pages (page_count + 1) hasUrl acc
            dsimp only
            omega
          · by_cases h200 : r.status = 200
            · rw [paged_walk_200 _ _ _ _ _ _ hstop h200]
              have hr := ih max_pages (page_count + 1) r.hasNext (acc ++ r.body)
              dsimp only
              omega
            · rw [paged_walk_abort _ _ _ _ _ _ hstop h403 h200]
              simp
              omega
  · intro cutoff repo_name r n h403
    induction n with
    | zero => rw [List.replicate_zero, fetch_merged_go_nil]
    | succ m ih =>
      rw [List.replicate_succ, fetch_merged_go_403 _ _ _ _ _ _ (by omega) h403]
      dsimp only
      omega

/-- Witness for `fetch_termination_bounds`: the repository walk on a stream of
twelve 403 responses stops within its budget of 10 requests, while the
merged-PR walk issues one request per 403, twelve in all. -/
theorem fetch_termination_bounds_witness :
    (paged_walk 10 (List.replicate 12 (.resp (⟨403, [], false⟩ : HttpResponse RepoJson)))
      0 true []).requests ≤ 10 - 0 ∧
    (fetch_merged_prs_go ⟨0, 0⟩ "r"
      (List.replicate 12 (.resp (⟨403, [], false⟩ : HttpResponse PRJson))) 1 []).requests = 12 := by
  constructor
  · exact fetch_termination_bounds.1 RepoJson _ 10 0 true []
  · exact fetch_termination_bounds.2 ⟨0, 0⟩ "r" ⟨403, [], false⟩ 12 (by decide)

/-! ### Claim C5 -/

theorem process_prs_early (cutoff : PyDateTime) (repo_name : String)
    (front : List PRJson) (pr6 : PRJson) (rest : List PRJson)
    (acc : List MergedPRRec)
    (hfront : ∀ pr ∈ front, ∃ t, pr.merged_at = some (.valid t) ∧
      PyDateTime.leb cutoff t = true)
    (t6 : PyDateTime) (h6 : pr6.merged_at = some (.valid t6))
    (h6lt : PyDateTime.leb cutoff t6 = false) :
    process_prs cutoff repo_name (front ++ pr6 :: rest) acc =
      (acc ++ front.filterMap (pr_record repo_name), true) := by
  induction front generalizing acc with
  | nil =>
    simp only [List.nil_append, List.filterMap_nil, List.append_nil]
    simp only [process_prs, h6]
    rw [if_neg (by simp [h6lt])]
  | cons p ps ih =>
    obtain ⟨t, hpt, hle⟩ := hfront p (by simp)
    rw [List.cons_append]
    simp only [process_prs, hpt]
    rw [if_pos hle, ih _ (fun pr hpr => hfront pr (by simp [hpr]))]
    simp [pr_record, hpt, List.filterMap_cons]

/-- C5: for a newest-first pull-request page in which the first five items
have merge timestamps at or after the cutoff and the sixth has one before it,
the extractor returns exactly the records of the first five, the result does
not depend on any entry beyond the sixth, and exactly one HTTP request is
made (it returns immediately rather than following the next-page link). -/
theorem extractor_early_exit (cutoff : PyDateTime) (repo_name : String)
    (front : List PRJson) (pr6 : PRJson) (rest : List PRJson) (hasNext : Bool)
    (hfront : ∀ pr ∈ front, ∃ t, pr.merged_at = some (.valid t) ∧
      PyDateTime.leb cutoff t = true)
    (hlen : front.length = 5)
    (t6 : PyDateTime) (h6 : pr6.merged_at = some (.valid t6))
    (h6lt : PyDateTime.leb cutoff t6 = false) :
    fetch_merged_prs_for_repo cutoff repo_name
        [.resp ⟨200, front ++ pr6 :: rest, hasNext⟩] =
      front.filterMap (pr_record repo_name) ∧
    fetch_merged_prs_go cutoff repo_name
        [.resp ⟨200, front ++ pr6 :: rest, hasNext⟩] 1 [] =
      fetch_merged_prs_go cutoff repo_name
        [.resp ⟨200, front ++ [pr6], hasNext⟩] 1 [] ∧
    (fetch_merged_prs_go cutoff repo_name
        [.resp ⟨200, front ++ pr6 :: rest, hasNext⟩] 1 []).requests = 1 := by
  have he1 := process_prs_early cutoff repo_name front pr6 rest [] hfront t6 h6 h6lt
  have he2 := process_prs_early cutoff repo_name front pr6 [] [] hfront t6 h6 h6lt
  have hw1 : fetch_merged_prs_go cutoff repo_name
      [.resp ⟨200, front ++ pr6 :: rest, hasNext⟩] 1 [] =
      ⟨front.filterMap (pr_record repo_name), 1, 1, 0⟩ := by
    rw [fetch_merged_go_200_early cutoff repo_name ⟨200, front ++ pr6 :: rest, hasNext⟩
      [] 1 [] (by omega) rfl (by simp) (by rw [he1])]
    rw [he1]
    simp
  have hw2 : fetch_merged_prs_go cutoff repo_name
      [.resp ⟨200, front ++ [pr6], hasNext⟩] 1 [] =
      ⟨front.filterMap (pr_record repo_name), 1, 1, 0⟩ := by
    rw [fetch_merged_go_200_early cutoff repo_name ⟨200, front ++ [pr6], hasNext⟩
      [] 1 [] (by omega) rfl (by simp) (by rw [he2])]
    rw [he2]
    simp
  refine ⟨?_, ?_, ?_⟩
  · rw [fetch_merged_prs_for_repo, hw1]
  · rw [hw1, hw2]
  · rw [hw1]

/-- Witness for `extractor_early_exit`: a concrete six-item page (plus one
junk entry beyond the sixth) returns exactly the first five records in one
request. -/
theorem extractor_early_exit_witness :
    fetch_merged_prs_for_repo ⟨0, 0⟩ "r"
        [.resp ⟨200,
          [⟨1, "t", some (.valid ⟨5, 0⟩)⟩, ⟨2, "t", some (.valid ⟨4, 0⟩)⟩,
           ⟨3, "t", some (.valid ⟨3, 0⟩)⟩, ⟨4, "t", some (.valid ⟨2, 0⟩)⟩,
           ⟨5, "t", some (.valid ⟨1, 0⟩)⟩, ⟨6, "t", some (.valid ⟨-1, 0⟩)⟩,
           ⟨7, "t", some (.valid ⟨9, 0⟩)⟩], true⟩] =
      [⟨⟨5, 0⟩, 1, "t", "r"⟩, ⟨⟨4, 0⟩, 2, "t", "r"⟩, ⟨⟨3, 0⟩, 3, "t", "r"⟩,
       ⟨⟨2, 0⟩, 4, "t", "r"⟩, ⟨⟨1, 0⟩, 5, "t", "r"⟩] := by
  have h := extractor_early_exit ⟨0, 0⟩ "r"
    [⟨1, "t", some (.valid ⟨5, 0⟩)⟩, ⟨2, "t", some (.valid ⟨4, 0⟩)⟩,
     ⟨3, "t", some (.valid ⟨3, 0⟩)⟩, ⟨4, "t", some (.valid ⟨2, 0⟩)⟩,
     ⟨5, "t", some (.valid ⟨1, 0⟩)⟩] ⟨6, "t", some (.valid ⟨-1, 0⟩)⟩
    [⟨7, "t", some (.valid ⟨9, 0⟩)⟩] true
    (by
      intro pr hpr
      simp only [List.mem_cons, List.not_mem_nil, or_false] at hpr
      rcases hpr with rfl | rfl | rfl | rfl | rfl
      · exact ⟨⟨5, 0⟩, rfl, by decide⟩
      · exact ⟨⟨4, 0⟩, rfl, by decide⟩
      · exact ⟨⟨3, 0⟩, rfl, by decide⟩
      · exact ⟨⟨2, 0⟩, rfl, by decide⟩
      · exact ⟨⟨1, 0⟩, rfl, by decide⟩)
    (by decide) ⟨-1, 0⟩ rfl (by decide)
  simp only [List.cons_append, List.nil_append] at h
  rw [h.1]
  decide

/-! ### Claim C1 -/

theorem has_merge_key_cons (row : MergeDateRow) (l : List MergeDateRow)
    (slug : String) (d : Int) (num : Int) (repo : String) :
    has_merge_key (row :: l) slug d num repo =
      (merge_key_matches row slug d num repo || has_merge_key l slug d num repo) := by
  simp [has_merge_key]

theorem batch_has_key_cons (pr : MergedPRRec) (rest : List MergedPRRec)
    (d : Int) (num : Int) (repo : String) :
    batch_has_key (pr :: rest) d num repo =
      ((pr.merged_at.date == d && pr.number == num && pr.repo == repo) ||
        batch_has_key rest d num repo) := by
  simp [batch_has_key]

theorem store_pending_has_key (org_slug org_name : String) (now : Int)
    (db : List MergeDateRow) (prs : List MergedPRRec)
    (d : Int) (num : Int) (repo : String) :
    has_merge_key (store_pending org_slug org_name now db prs) org_slug d num repo =
      (batch_has_key prs d num repo &&
        !(has_merge_key db org_slug d num repo)) := by
  induction prs with
  | nil => simp [store_pending, batch_has_key, has_merge_key]
  | cons pr rest ih =>
    by_cases hdb : has_merge_key db org_slug pr.merged_at.date pr.number pr.repo = true
    · rw [store_pending, if_pos hdb, ih, batch_has_key_cons]
      by_cases hkey : (pr.merged_at.date == d && pr.number == num && pr.repo == repo) = true
      · simp only [Bool.and_eq_true, beq_iff_eq] at hkey
        obtain ⟨⟨h1, h2⟩, h3⟩ := hkey
        subst h1; subst h2; subst h3
        simp [hdb]
      · rw [Bool.of_not_eq_true hkey]
        simp
    · rw [store_pending, if_neg hdb, has_merge_key_cons, ih, batch_has_key_cons]
      by_cases hkey : (pr.merged_at.date == d && pr.number == num && pr.repo == repo) = true
      · simp only [Bool.and_eq_true, beq_iff_eq] at hkey
        obtain ⟨⟨h1, h2⟩, h3⟩ := hkey
        subst h1; subst h2; subst h3
        simp [merge_key_matches, Bool.of_not_eq_true hdb]
      · have hkf := Bool.of_not_eq_true hkey
        have hrow : merge_key_matches
            ⟨org_slug, org_name, pr.merged_at.date, pr.merged_at, pr.repo, pr.number, now⟩
            org_slug d num repo =
            (pr.merged_at.date == d && pr.number == num && pr.repo == repo) := by
          simp [merge_key_matches]
        rw [hrow, hkf]
        simp

theorem store_merge_keyset (org_slug org_name : String) (now : Int)
    (db : List MergeDateRow) (prs : List MergedPRRec)
    (d : Int) (num : Int) (repo : String) :
    has_merge_key (store_merge_dates org_slug org_name now db prs).1 org_slug d num repo =
      (has_merge_key db org_slug d num repo || batch_has_key prs d num repo) := by
  simp only [store_merge_dates, has_merge_key, List.any_append]
  rw [show (store_pending org_slug org_name now db prs).any
      (fun r => merge_key_matches r org_slug d num repo) =
      has_merge_key (store_pending org_slug org_name now db prs) org_slug d num repo from rfl,
    store_pending_has_key]
  rw [show db.any (fun r => merge_key_matches r org_slug d num repo) =
      has_merge_key db org_slug d num repo from rfl]
  cases has_merge_key db org_slug d num repo <;>
    cases batch_has_key prs d num repo <;> rfl

/-- C1: the merge-date store inserts a row only when no committed row carries
the same natural key — the stored key set after a run is the union of the
previous key set and the batch key set — and a second run over an overlapping
window (every key of its batch already stored or in the first batch) inserts
zero rows and leaves the table unchanged. -/
theorem merge_ingestion_idempotent (org_slug n1 n2 : String) (now1 now2 : Int)
    (db : List MergeDateRow) (b1 b2 : List MergedPRRec)
    (hsub : ∀ pr ∈ b2,
      has_merge_key db org_slug pr.merged_at.date pr.number pr.repo = true ∨
      batch_has_key b1 pr.merged_at.date pr.number pr.repo = true) :
    (∀ d num repo,
      has_merge_key (store_merge_dates org_slug n1 now1 db b1).1 org_slug d num repo =
        (has_merge_key db org_slug d num repo || batch_has_key b1 d num repo)) ∧
    store_merge_dates org_slug n2 now2 (store_merge_dates org_slug n1 now1 db b1).1 b2 =
      ((store_merge_dates org_slug n1 now1 db b1).1, 0) := by
  refine ⟨fun d num repo => store_merge_keyset org_slug n1 now1 db b1 d num repo, ?_⟩
  have hpend : store_pending org_slug n2 now2
      (store_merge_dates org_slug n1 now1 db b1).1 b2 = [] := by
    induction b2 with
    | nil => rfl
    | cons pr rest ih =>
      have hk : has_merge_key (store_merge_dates org_slug n1 now1 db b1).1 org_slug
          pr.merged_at.date pr.number pr.repo = true := by
        rw [store_merge_keyset]
        rcases hsub pr (by simp) with h | h
        · simp [h]
        · simp [h]
      rw [store_pending, if_pos hk]
      exact ih (fun q hq => hsub q (by simp [hq]))
  rw [show store_merge_dates org_slug n2 now2 (store_merge_dates org_slug n1 now1 db b1).1 b2 =
      ((store_merge_dates org_slug n1 now1 db b1).1 ++
        store_pending org_slug n2 now2 (store_merge_dates org_slug n1 now1 db b1).1 b2,
       (store_pending org_slug n2 now2 (store_merge_dates org_slug n1 now1 db b1).1 b2).length)
    from rfl, hpend]
  simp

/-- Witness for `merge_ingestion_idempotent`: storing the same one-PR batch
twice inserts the row once and the re-run inserts nothing. -/
theorem merge_ingestion_idempotent_witness :
    has_merge_key (store_merge_dates "org" "O" 0 [] [⟨⟨5, 0⟩, 1, "t", "r"⟩]).1 "org" 5 1 "r" =
      (has_merge_key [] "org" 5 1 "r" || batch_has_key [⟨⟨5, 0⟩, 1, "t", "r"⟩] 5 1 "r") ∧
    store_merge_dates "org" "O2" 1
        (store_merge_dates "org" "O" 0 [] [⟨⟨5, 0⟩, 1, "t", "r"⟩]).1
        [⟨⟨5, 0⟩, 1, "t", "r"⟩] =
      ((store_merge_dates "org" "O" 0 [] [⟨⟨5, 0⟩, 1, "t", "r"⟩]).1, 0) := by
  have h := merge_ingestion_idempotent "org" "O" "O2" 0 1 [] [⟨⟨5, 0⟩, 1, "t", "r"⟩]
    [⟨⟨5, 0⟩, 1, "t", "r"⟩]
    (by
      intro pr hpr
      simp only [List.mem_singleton] at hpr
      subst hpr
      right
      decide)
  exact ⟨h.1 5 1 "r", h.2⟩

/-! ### Claims C8 and C9 -/

theorem persist_go_attempts_le (po : Nat → PersistOutcome)
    (commit : MetricsDB → MetricsDB) (db : MetricsDB) :
    ∀ rem att, (persist_go po commit db rem att).attempts ≤ rem := by
  intro rem
  induction rem with
  | zero => intro att; simp [persist_go]
  | succ m ih =>
    intro att
    simp only [persist_go]
    cases po att with
    | success => simp
    | otherErr => simp
    | opErr =>
      have := ih (att + 1)
      dsimp only
      omega

theorem persist_go_ok_db (po : Nat → PersistOutcome)
    (commit : MetricsDB → MetricsDB) (db : MetricsDB) :
    ∀ rem att, ((persist_go po commit db rem att).ok = true →
      (persist_go po commit db rem att).db = commit db) ∧
      ((persist_go po commit db rem att).ok = false →
      (persist_go po commit db rem att).db = db) := by
  intro rem
  induction rem with
  | zero => intro att; simp [persist_go]
  | succ m ih =>
    intro att
    simp only [persist_go]
    cases po att with
    | success => simp
    | otherErr => simp
    | opErr =>
      have h := ih (att + 1)
      dsimp only
      exact h

theorem persist_go_retries_opErr (po : Nat → PersistOutcome)
    (commit : MetricsDB → MetricsDB) (db : MetricsDB) :
    ∀ rem att k, k + 1 < (persist_go po commit db rem att).attempts →
      po (att + k) = .opErr := by
  intro rem
  induction rem with
  | zero => intro att k h; simp [persist_go] at h
  | succ m ih =>
    intro att k h
    simp only [persist_go] at h
    cases hp : po att with
    | success => rw [hp] at h; simp at h
    | otherErr => rw [hp] at h; simp at h
    | opErr =>
      rw [hp] at h
      dsimp only at h
      cases k with
      | zero => simpa using hp
      | succ j =>
        have := ih (att + 1) j (by omega)
        rw [show att + (j + 1) = att + 1 + j from by omega]
        exact this

theorem persist_go_ok_sleep (po : Nat → PersistOutcome)
    (commit : MetricsDB → MetricsDB) (db : MetricsDB) :
    ∀ rem att, (persist_go po commit db rem att).ok = true →
      (persist_go po commit db rem att).sleepSecs =
        5 * ((persist_go po commit db rem att).attempts - 1) := by
  intro rem
  induction rem with
  | zero => intro att h; simp [persist_go] at h
  | succ m ih =>
    intro att
    simp only [persist_go]
    cases po att with
    | success => intro _; simp
    | otherErr => intro h; simp at h
    | opErr =>
      intro h
      dsimp only at h ⊢
      have h2 := ih (att + 1) h
      have h3 : 1 ≤ (persist_go po commit db m (att + 1)).attempts := by
        rcases Nat.eq_zero_or_pos (persist_go po commit db m (att + 1)).attempts with h0 | h0
        · exfalso
          cases hm : m with
          | zero => rw [hm] at h; simp [persist_go] at h
          | succ j =>
            rw [hm] at h0
            simp only [persist_go] at h0
            cases hp2 : po (att + 1) with
            | success => rw [hp2] at h0; simp at h0
            | otherErr => rw [hp2] at h0; simp at h0
            | opErr => rw [hp2] at h0; dsimp only at h0; omega
        · exact h0
      omega

/-- C9: the per-organization persist step attempts the transaction at most
3 times; only an `OperationalError` leads to a further attempt, with a
5-second pause for each such error; any other error aborts after that attempt
with the database unchanged and no retry; on success the `MetricsSnapshot`
upsert and the `HistoricalObservation` append are applied together by the
single commit. -/
theorem persist_retry_policy (github_slug display_name : String) (data : OrgData)
    (now : Int) (po : Nat → PersistOutcome) (db : MetricsDB) :
    (persist_org github_slug display_name data now po db).attempts ≤ 3 ∧
    ((persist_org github_slug display_name data now po db).ok = true →
      (persist_org github_slug display_name data now po db).db =
        upsert_metrics github_slug display_name data now db ∧
      (persist_org github_slug display_name data now po db).sleepSecs =
        5 * ((persist_org github_slug display_name data now po db).attempts - 1)) ∧
    ((persist_org github_slug display_name data now po db).ok = false →
      (persist_org github_slug display_name data now po db).db = db) ∧
    (∀ k, k + 1 < (persist_org github_slug display_name data now po db).attempts →
      po k = .opErr) ∧
    (po 0 = .otherErr →
      persist_org github_slug display_name data now po db = ⟨db, 1, 0, false⟩) ∧
    ((∀ k, k < 3 → po k = .opErr) →
      persist_org github_slug display_name data now po db = ⟨db, 3, 15, false⟩) := by
  refine ⟨persist_go_attempts_le po _ db 3 0, ?_, ?_, ?_, ?_, ?_⟩
  · intro h
    exact ⟨(persist_go_ok_db po _ db 3 0).1 h, persist_go_ok_sleep po _ db 3 0 h⟩
  · exact (persist_go_ok_db po _ db 3 0).2
  · intro k h
    have := persist_go_retries_opErr po _ db 3 0 k h
    simpa using this
  · intro h
    simp only [persist_org, persist_go, h]
  · intro h
    simp only [persist_org, persist_go, h 0 (by omega), h 1 (by omega), h 2 (by omega)]

/-- Witness for `persist_retry_policy`: an immediately-failing other error
aborts after one attempt, and three OperationalErrors exhaust the budget with
15 s slept. -/
theorem persist_retry_policy_witness :
    persist_org "s" "n" ⟨none, none, none, none, none, none, none⟩ 0
        (fun _ => PersistOutcome.otherErr) ⟨[], []⟩ = ⟨⟨[], []⟩, 1, 0, false⟩ ∧
    persist_org "s" "n" ⟨none, none, none, none, none, none, none⟩ 0
        (fun _ => PersistOutcome.opErr) ⟨[], []⟩ = ⟨⟨[], []⟩, 3, 15, false⟩ := by
  constructor
  · exact (persist_retry_policy "s" "n" ⟨none, none, none, none, none, none, none⟩ 0
      (fun _ => PersistOutcome.otherErr) ⟨[], []⟩).2.2.2.2.1 rfl
  · exact (persist_retry_policy "s" "n" ⟨none, none, none, none, none, none, none⟩ 0
      (fun _ => PersistOutcome.opErr) ⟨[], []⟩).2.2.2.2.2 (fun k _ => rfl)

/-- C8: both batch entry points are total over the oracle-supplied
per-organization outcomes (timeout, fetch exception, missing data, persist
failures, raised exceptions) and emit exactly one status per organization, in
order: no single organization's failure halts processing of the rest, and
neither loop propagates an error to the caller. -/
theorem batch_processes_all (now : Int) (fOracle : NormalizedOrg → FetchOutcome)
    (pOracle : NormalizedOrg → Nat → PersistOutcome) (orgs : List NormalizedOrg)
    (db : MetricsDB) (moracle : String × String → MergeFetchOutcome)
    (orgs2 : List (String × String)) :
    (update_github_data now fOracle pOracle orgs db).2.length = orgs.length ∧
    (fetch_all_merge_dates moracle orgs2).2.length = orgs2.length := by
  constructor
  · induction orgs generalizing db with
    | nil => rfl
    | cons org rest ih =>
      simp only [update_github_data, List.length_cons]
      rw [ih]
  · induction orgs2 with
    | nil => rfl
    | cons org rest ih =>
      simp only [fetch_all_merge_dates]
      cases moracle org with
      | raises => simp only [List.length_cons]; rw [ih]
      | returns c => simp only [List.length_cons]; rw [ih]

/-! ### Claim C10 -/

theorem round_half_even_bounds (q : ℚ) :
    (⌊q⌋ : ℤ) ≤ round_half_even q ∧ round_half_even q ≤ ⌊q⌋ + 1 := by
  simp only [round_half_even]
  by_cases h1 : q - (⌊q⌋ : ℚ) < 1 / 2
  · rw [if_pos h1]; omega
  · rw [if_neg h1]
    by_cases h2 : 1 / 2 < q - (⌊q⌋ : ℚ)
    · rw [if_pos h2]; omega
    · rw [if_neg h2]
      by_cases h3 : ⌊q⌋ % 2 = 0
      · rw [if_pos h3]; omega
      · rw [if_neg h3]; omega

theorem round_half_even_le (q : ℚ) (n : ℤ) (h : q ≤ (n : ℚ)) :
    round_half_even q ≤ n := by
  have hf : ⌊q⌋ ≤ n := by
    have := Int.floor_le_floor h
    rwa [Int.floor_intCast] at this
  by_cases heq : ⌊q⌋ = n
  · have hfrac : q - (⌊q⌋ : ℚ) < 1 / 2 := by
      have hsub : q - (⌊q⌋ : ℚ) ≤ 0 := by
        rw [heq]
        have : q - (n : ℚ) ≤ 0 := by linarith
        exact this
      linarith
    simp only [round_half_even]
    rw [if_pos hfrac]
    omega
  · have : ⌊q⌋ + 1 ≤ n := by omega
    exact le_trans (round_half_even_bounds q).2 this

theorem round_half_even_nonneg (q : ℚ) (h : 0 ≤ q) : 0 ≤ round_half_even q := by
  have hf : (0 : ℤ) ≤ ⌊q⌋ := Int.floor_nonneg.mpr h
  exact le_trans hf (round_half_even_bounds q).1

theorem pyRound3_bounds (q : ℚ) (h0 : 0 ≤ q) (h1 : q ≤ 1) :
    0 ≤ pyRound3 q ∧ pyRound3 q ≤ 1 := by
  have hr0 : 0 ≤ round_half_even (q * 1000) :=
    round_half_even_nonneg _ (by positivity)
  have hr1 : round_half_even (q * 1000) ≤ 1000 :=
    round_half_even_le _ 1000 (by push_cast; nlinarith)
  constructor
  · simp only [pyRound3]
    positivity
  · simp only [pyRound3]
    rw [div_le_one (by norm_num)]
    exact_mod_cast hr1

/-- C10: for every repository list and every per-repository PR fetch result,
`calculate_metrics` reports `merged_prs ≤ total_prs` (each repository's
merged count is a filtered count of its PR list) and a merge frequency in
`[0, 1]`. -/
theorem calculate_metrics_bounds (repos : List RepoJson)
    (fetch_pr : String → String → List PRJson) :
    (calculate_metrics repos fetch_pr).merged_prs ≤
      (calculate_metrics repos fetch_pr).total_prs ∧
    0 ≤ (calculate_metrics repos fetch_pr).merge_frequency ∧
    (calculate_metrics repos fetch_pr).merge_frequency ≤ 1 := by
  have hsum : ∀ rs : List RepoJson,
      (rs.map (fun repo => (fetch_pr repo.owner_login repo.name).countP
        (fun pr => pr.merged_at.isSome))).sum ≤
      (rs.map (fun repo => (fetch_pr repo.owner_login repo.name).length)).sum := by
    intro rs
    induction rs with
    | nil => simp
    | cons r rest ih =>
      simp only [List.map_cons, List.sum_cons]
      exact Nat.add_le_add (List.countP_le_length _) ih
  refine ⟨hsum repos, ?_⟩
  simp only [calculate_metrics]
  set total := (repos.map (fun repo => (fetch_pr repo.owner_login repo.name).length)).sum with htotal
  set merged := (repos.map (fun repo => (fetch_pr repo.owner_login repo.name).countP
    (fun pr => pr.merged_at.isSome))).sum with hmerged
  have hmt : merged ≤ total := hsum repos
  have hq0 : 0 ≤ (if 0 < total then (merged : ℚ) / (total : ℚ) else 0) := by
    by_cases ht : 0 < total
    · rw [if_pos ht]
      positivity
    · rw [if_neg ht]
  have hq1 : (if 0 < total then (merged : ℚ) / (total : ℚ) else 0) ≤ 1 := by
    by_cases ht : 0 < total
    · rw [if_pos ht, div_le_one (by exact_mod_cast ht)]
      exact_mod_cast hmt
    · rw [if_neg ht]; norm_num
  exact pyRound3_bounds _ hq0 hq1

end Ingest
